import Mathlib

/-!
Shallow embedding of the circuit simulator in `src/everything.cpp`.

Modelling conventions:

* Primitive gates (`IGate` subclasses `LowOutput`, `Nand`, `Register`,
  `TickOutputOnly`, `Input`) become a closed sum `GateType` together with a
  `GateState` record holding the per-instance mutable data.  The gate arena
  (`GateKeeper`) is a list of gate states; a C++ `IGate*` becomes a
  `Handle := Option Nat` (an arena index, `none` standing for a null
  pointer).
* `IGate::getValue` is a recursive pull evaluation that does not terminate
  on purely combinational cycles, so the Lean version takes explicit fuel
  and returns `Option Bool`; `none` models running out of fuel, a null
  dereference or a failed `assert` — all the ways the C++ program has no
  defined result.
* `assert` failures and undefined behaviour are uniformly modelled by
  `Option`/`none` results.  Console printing (`GateKeeper::print`, the
  probe's per-tick line and its tick counter `t`, the probe label) is pure
  I/O with no influence on simulation values and is left out of the model.
* `std::unordered_map<std::string, IGate*>` becomes an association list
  `SymTab`; `insert` does not overwrite an existing key and `operator[]`
  default-inserts a null handle, exactly as in C++.
-/

namespace CircuitSim

/-- The closed set of primitive gate classes in the source. -/
inductive GateType where
  | low
  | nand
  | register
  | tickOutputOnly
  | input
deriving DecidableEq, Repr

/-- Input arity of each gate class (the template parameter `N` of `Gate<N>`). -/
def GateType.numInputs : GateType → Nat
  | .low => 0
  | .nand => 2
  | .register => 1
  | .tickOutputOnly => 1
  | .input => 2

/-- The string returned by each class's `getType()`. -/
def GateType.typeName : GateType → String
  | .low => "low"
  | .nand => "nand"
  | .register => "register"
  | .tickOutputOnly => "tick - outputonly"
  | .input => "user-input"

/-- An `IGate*`: an arena index, or `none` for a null pointer. -/
abbrev Handle := Option Nat

/-- Per-instance state of one primitive gate, as stored in the arena.
`value` is the committed value of a `Register` (also the `val` field of an
`Input` gate); `nextValue` is the register's staged value. -/
structure GateState where
  name : String
  type : GateType
  inputs : List Handle
  value : Bool := false
  nextValue : Bool := false
deriving DecidableEq, Repr

/-- The `GateKeeper`: owner of every gate, in allocation order. -/
abbrev Arena := List GateState

/-- A freshly constructed gate of class `t` (all fields at their C++
default-member-initializer values; unlinked inputs modelled as null). -/
def mkGate (name : String) (t : GateType) : GateState :=
  { name := name, type := t, inputs := List.replicate t.numInputs none }

/-- `IGate::getValue`, fuelled.  `Nand` recomputes `!(in0 && in1)` with C++
short-circuit evaluation; `Register` and `Input` return their stored value
without recursion; `TickOutputOnly::getValue` is `assert(false)`. -/
def getValue (a : Arena) : Nat → Nat → Option Bool
  | 0, _ => none
  | fuel + 1, i =>
    match a[i]? with
    | none => none
    | some g =>
      match g.type with
      | .low => some false
      | .nand =>
        match g.inputs[0]? with
        | some (some j) =>
          match getValue a fuel j with
          | some false => some true
          | some true =>
            match g.inputs[1]? with
            | some (some k) =>
              match getValue a fuel k with
              | some v => some (!v)
              | none => none
            | _ => none
          | none => none
        | _ => none
      | .register => some g.value
      | .tickOutputOnly => none
      | .input => some g.value

/-- One gate's `tick1()` (phase 1), dispatched on its class: a `Register`
stages `nextValue := input0.getValue()`; `TickOutputOnly` reads its input
(its printing is out of the model); every other class is a no-op. -/
def tick1Step (fuel : Nat) (a : Arena) (i : Nat) : Option Arena :=
  match a[i]? with
  | none => some a
  | some g =>
    match g.type with
    | .register =>
      match g.inputs[0]? with
      | some (some j) =>
        match getValue a fuel j with
        | some v => some (a.set i { g with nextValue := v })
        | none => none
      | _ => none
    | .tickOutputOnly =>
      match g.inputs[0]? with
      | some (some j) =>
        match getValue a fuel j with
        | some _ => some a
        | none => none
      | _ => none
    | _ => some a

/-- The phase-1 loop of `GateKeeper::tick`, over a list of arena indices. -/
def tick1Go (fuel : Nat) : List Nat → Arena → Option Arena
  | [], a => some a
  | i :: is, a =>
    match tick1Step fuel a i with
    | none => none
    | some a' => tick1Go fuel is a'

/-- Phase 1 over every gate, in arena order. -/
def tick1 (fuel : Nat) (a : Arena) : Option Arena :=
  tick1Go fuel (List.range a.length) a

/-- One gate's `tick2()` (phase 2): a `Register` commits
`value := nextValue`; every other class is a no-op. -/
def tick2Step (g : GateState) : GateState :=
  match g.type with
  | .register => { g with value := g.nextValue }
  | _ => g

/-- Phase 2 over every gate, in arena order. -/
def tick2 (a : Arena) : Arena :=
  a.map tick2Step

/-- `GateKeeper::tick`: phase 1 over every gate, then phase 2 over every
gate. -/
def tick (fuel : Nat) (a : Arena) : Option Arena :=
  match tick1 fuel a with
  | none => none
  | some a' => some (tick2 a')

/-- The composite circuit's symbol table
(`std::unordered_map<std::string, IGate*> everything`). -/
abbrev SymTab := List (String × Handle)

/-- `unordered_map::find`, first binding of a key. -/
def lookupSym : SymTab → String → Option Handle
  | [], _ => none
  | (k, v) :: rest, key => if k = key then some v else lookupSym rest key

/-- `unordered_map::insert`: does nothing when the key is already present. -/
def insertSym (ev : SymTab) (k : String) (v : Handle) : SymTab :=
  match lookupSym ev k with
  | some _ => ev
  | none => ev ++ [(k, v)]

/-- `unordered_map::operator[]`: returns the existing binding, or
default-inserts a null handle for a missing key and returns that null. -/
def indexSym (ev : SymTab) (k : String) : SymTab × Handle :=
  match lookupSym ev k with
  | some h => (ev, h)
  | none => (ev ++ [(k, none)], none)

/-- An `IPrototype`: a primitive `GatePrototype<T>`, an `OutputPrototype`
(probe, carrying its label), or a finalized `CompositePrototype` with its
type name, outer port names and placement list. -/
inductive Prototype where
  | gate (t : GateType)
  | output (label : String)
  | composite (typeName : String) (outerInputIds : List String)
      (outerOutputIds : List String)
      (commands : List (Prototype × List String × List String × String))

/-- An entry of `CompositePrototype::commands` (`ChildData`): child
prototype, input net names, output net names, diagnostic child label. -/
abbrev Cmd := Prototype × List String × List String × String

/-- `IPrototype::getNumInputs` (fixed at construction). -/
def Prototype.numInputs : Prototype → Nat
  | .gate t => t.numInputs
  | .output _ => 1
  | .composite _ ins _ _ => ins.length

/-- `IPrototype::getNumOutputs` (fixed at construction; a `GatePrototype`
always declares one output, an `OutputPrototype` zero). -/
def Prototype.numOutputs : Prototype → Nat
  | .gate _ => 1
  | .output _ => 0
  | .composite _ _ outs _ => outs.length

mutual

/-- The invariants `CompositePrototype::addPrototype` enforces with
`assert` while a prototype is being built: every placement's input and
output net-name lists match the child's declared arities, recursively.
Prototype values in this model stand for finalized prototypes, so a
prototype reachable through the source's build API satisfies `wf`. -/
def wf : Prototype → Bool
  | .gate _ => true
  | .output _ => true
  | .composite _ _ _ cmds => wfCmds cmds

/-- `wf` for a placement list. -/
def wfCmds : List Cmd → Bool
  | [] => true
  | (p, ins, outs, _) :: rest =>
    (ins.length == p.numInputs) && (outs.length == p.numOutputs) && wf p && wfCmds rest

end

/-- An `ICircuit`: either a `GateCircuit` wrapping one arena gate, or a
`CompositePrototype::Circuit` with its link state, symbol table, child
circuits in placement order, and parent prototype. -/
inductive Circuit where
  | gateC (g : Nat)
  | compositeC (linked : Bool) (everything : SymTab) (circuits : List Circuit)
      (parent : Prototype)

/-- `ICircuit::getOutput`.  A `GateCircuit` asserts `i == 0` and returns its
gate; a composite asserts `i` is in range and that the `i`-th outer output
name is bound, then returns that binding.  `none` models a failed assert. -/
def getOutput : Circuit → Nat → Option Handle
  | .gateC g, i => if i = 0 then some (some g) else none
  | .compositeC _ ev _ parent, i =>
    match parent with
    | .composite _ _ outs _ =>
      if i < outs.length then
        match outs[i]? with
        | some nm => lookupSym ev nm
        | none => none
      else none
    | _ => none

/-- The `LongNameBuilder` extension performed for each placement:
`builder2 = builder; builder2.addType(type_name); if (child_id != "")
builder2.addChildId(child_id);`. -/
def childBuilder (builder tn childId : String) : String :=
  builder ++ "[" ++ tn ++ "] " ++
    (if childId = "" then "" else "\x7b" ++ childId ++ "\x7d: ")

/-- The output-registration loop in `CompositePrototype::Circuit`'s
constructor: for each output index `i` of the child, assert the net name is
not yet bound (duplicate output nets abort) and insert
`(outputs[i], circuit->getOutput(i))`. -/
def regOutputs (circ : Circuit) (outsN : List String) :
    List Nat → SymTab → Option SymTab
  | [], ev => some ev
  | i :: is, ev =>
    match outsN[i]? with
    | none => none
    | some nm =>
      match lookupSym ev nm with
      | some _ => none
      | none =>
        match getOutput circ i with
        | none => none
        | some h => regOutputs circ outsN is (ev ++ [(nm, h)])

mutual

/-- `IPrototype::instantiate`.  A gate prototype allocates one gate named
`builder ++ "[" ++ getType ++ "] "` and wraps it; a composite runs its
placement loop (`instLoop`).  Returns the grown arena and the new circuit;
`none` models an aborted construction. -/
def instantiate (p : Prototype) (arena : Arena) (builder : String) :
    Option (Arena × Circuit) :=
  match p with
  | .gate t =>
    some (arena ++ [mkGate (builder ++ "[" ++ t.typeName ++ "] ") t],
      .gateC arena.length)
  | .output _ =>
    some (arena ++
        [mkGate (builder ++ "[" ++ GateType.tickOutputOnly.typeName ++ "] ")
          .tickOutputOnly],
      .gateC arena.length)
  | .composite tn ins outs cmds =>
    match instLoop tn builder cmds arena [] [] with
    | none => none
    | some (arena', ev, circs) =>
      some (arena', .compositeC false ev circs (.composite tn ins outs cmds))

/-- The placement loop of `CompositePrototype::Circuit`'s constructor: for
each placement in declared order, extend the diagnostic name with the
composite's type (and child label, when present), instantiate the child,
register its output nets, and retain the child circuit. -/
def instLoop (tn : String) (builder : String) :
    List Cmd → Arena → SymTab → List Circuit →
    Option (Arena × SymTab × List Circuit)
  | [], arena, ev, acc => some (arena, ev, acc)
  | (p, _, outsN, childId) :: rest, arena, ev, acc =>
    match instantiate p arena (childBuilder builder tn childId) with
    | none => none
    | some (arena', circ) =>
      match regOutputs circ outsN (List.range p.numOutputs) ev with
      | none => none
      | some ev' => instLoop tn builder rest arena' ev' (acc ++ [circ])

end

/-- The outer-input insertion loop of `CompositePrototype::Circuit::link`:
`everything.insert({outer_input_ids[i], args[i]})` for each `i` (a plain
`insert`, so an existing binding is kept). -/
def insertArgs : SymTab → List String → List Handle → SymTab
  | ev, nm :: ns, h :: hs => insertArgs (insertSym ev nm h) ns hs
  | ev, _, _ => ev

/-- The per-placement input-resolution loop of
`CompositePrototype::Circuit::link`: `data.push_back(everything[name])`
for each input net name, with `operator[]` default-inserting a null handle
for a name that is not bound. -/
def resolveInputs (ev : SymTab) : List String → SymTab × List Handle
  | [] => (ev, [])
  | nm :: rest =>
    match indexSym ev nm with
    | (ev1, h) =>
      match resolveInputs ev1 rest with
      | (ev2, hs) => (ev2, h :: hs)

mutual

/-- `ICircuit::link`.  For a `GateCircuit`: assert the argument count
matches the gate's arity, then write every input slot (no link-state is
tracked).  For a composite: assert it is not yet linked, mark it linked,
assert the arity, insert the outer inputs into the symbol table, then
resolve and link every placement in order.  The returned arena reflects
every gate mutation performed before an abort; `none` in the second
component models the abort itself. -/
def linkC (arena : Arena) (c : Circuit) (args : List Handle) :
    Arena × Option Circuit :=
  match c with
  | .gateC g =>
    match arena[g]? with
    | none => (arena, none)
    | some gate =>
      if args.length = gate.inputs.length then
        (arena.set g { gate with inputs := args }, some (.gateC g))
      else (arena, none)
  | .compositeC linked ev circs parent =>
    match parent with
    | .composite tn ins outs cmds =>
      if linked then (arena, none)
      else if args.length = ins.length then
        match linkLoop arena (insertArgs ev ins args) circs cmds with
        | (arena', none) => (arena', none)
        | (arena', some (ev2, circs')) =>
          (arena', some (.compositeC true ev2 circs' (.composite tn ins outs cmds)))
      else (arena, none)
    | _ => (arena, none)

/-- The placement-linking loop of `CompositePrototype::Circuit::link`:
resolve placement `i`'s input nets against the (mutating) symbol table and
recursively link child circuit `i` with the resolved handles. -/
def linkLoop (arena : Arena) (ev : SymTab) :
    List Circuit → List Cmd → Arena × Option (SymTab × List Circuit)
  | [], _ => (arena, some (ev, []))
  | _ :: _, [] => (arena, none)
  | c :: cs, (_, insN, _, _) :: rest =>
    match resolveInputs ev insN with
    | (ev1, data) =>
      match linkC arena c data with
      | (arena', none) => (arena', none)
      | (arena', some c') =>
        match linkLoop arena' ev1 cs rest with
        | (arena'', none) => (arena'', none)
        | (arena'', some (ev2, cs')) => (arena'', some (ev2, c' :: cs'))

end

/-! ### Example prototypes from `main` -/

/-- `NandPrototype` (`GatePrototype<Nand>::getInstance()`). -/
def nandPrototype : Prototype := .gate .nand

/-- `LowOutputPrototype`. -/
def lowPrototype : Prototype := .gate .low

/-- `RegisterPrototype`. -/
def registerPrototype : Prototype := .gate .register

/-- `notPrototype` from `main`. -/
def notPrototype : Prototype :=
  .composite "not" ["in"] ["not"] [(nandPrototype, ["in", "in"], ["not"], "")]

/-- `andPrototype` from `main`. -/
def andPrototype : Prototype :=
  .composite "and" ["in1", "in2"] ["and"]
    [(nandPrototype, ["in1", "in2"], ["nand"], ""),
     (notPrototype, ["nand"], ["and"], "")]

/-- `orPrototype` from `main`. -/
def orPrototype : Prototype :=
  .composite "or" ["in1", "in2"] ["or"]
    [(notPrototype, ["in1"], ["nin1"], ""),
     (notPrototype, ["in2"], ["nin2"], ""),
     (nandPrototype, ["nin1", "nin2"], ["or"], "")]

/-- `xorPrototype` from `main`. -/
def xorPrototype : Prototype :=
  .composite "xor" ["in1", "in2"] ["xor"]
    [(orPrototype, ["in1", "in2"], ["or"], ""),
     (nandPrototype, ["in1", "in2"], ["nand"], ""),
     (andPrototype, ["or", "nand"], ["xor"], "")]

/-- `adderPrototype` from `main` (the 3-input single-bit adder). -/
def adderPrototype : Prototype :=
  .composite "3-bit adder" ["1", "2", "3"] ["value", "carry"]
    [(xorPrototype, ["1", "2"], ["1x2"], ""),
     (xorPrototype, ["1x2", "3"], ["value"], ""),
     (andPrototype, ["1", "2"], ["12"], ""),
     (andPrototype, ["1", "3"], ["13"], ""),
     (andPrototype, ["3", "2"], ["32"], ""),
     (orPrototype, ["12", "13"], ["12+13"], ""),
     (orPrototype, ["12+13", "32"], ["carry"], "")]

/-- `clkPrototype` from `main`: a register whose input net `in` is produced
by the later `not` placement fed back from the register's own output net
`out`. -/
def clkPrototype : Prototype :=
  .composite "clock" [] ["out"]
    [(registerPrototype, ["in"], ["out"], ""),
     (notPrototype, ["out"], ["in"], "")]

/-! ### Running a circuit -/

/-- Read outputs `i, i+1, ..., i+n-1` of a circuit through
`getOutput`/`getValue`. -/
def readOutputsFrom (fuel : Nat) (a : Arena) (c : Circuit) :
    Nat → Nat → Option (List Bool)
  | _, 0 => some []
  | i, n + 1 =>
    match getOutput c i with
    | some (some j) =>
      match getValue a fuel j with
      | none => none
      | some v =>
        match readOutputsFrom fuel a c (i + 1) n with
        | none => none
        | some vs => some (v :: vs)
    | _ => none

/-- Read a circuit's first `n` outputs through `getOutput`/`getValue`. -/
def readOutputs (fuel : Nat) (a : Arena) (c : Circuit) (n : Nat) :
    Option (List Bool) :=
  readOutputsFrom fuel a c 0 n

/-- Tick `n` times, reading every output after each tick. -/
def runGo (fuel nOut : Nat) (c : Circuit) : Nat → Arena → Option (List (List Bool))
  | 0, _ => some []
  | n + 1, a =>
    match tick fuel a with
    | none => none
    | some a' =>
      match readOutputs fuel a' c nOut with
      | none => none
      | some vs =>
        match runGo fuel nOut c n a' with
        | none => none
        | some rest => some (vs :: rest)

/-- Instantiate `p` into a fresh arena, link it with `args`, tick `n`
times, and report all outputs after each tick. -/
def runSeq (fuel : Nat) (p : Prototype) (args : List Handle) (n : Nat) :
    Option (List (List Bool)) :=
  match instantiate p [] "" with
  | none => none
  | some (a, c) =>
    match linkC a c args with
    | (a1, some c1) => runGo fuel p.numOutputs c1 n a1
    | (_, none) => none

/-! ### Basic list facts -/

lemma lt_length_of_getElem? {α : Type} {l : List α} {i : Nat} {x : α}
    (h : l[i]? = some x) : i < l.length := by
  by_contra hh
  push_neg at hh
  rw [List.getElem?_eq_none hh] at h
  cases h

lemma set_self_of_getElem? {α : Type} {l : List α} {i : Nat} {x : α}
    (h : l[i]? = some x) : l.set i x = l := by
  induction l generalizing i with
  | nil => cases h
  | cons hd tl ih =>
    cases i with
    | zero => simp at h; simp [h]
    | succ n => simp at h; simp [List.set, ih h]

/-! ### Two-phase tick: phase 1 only touches staged values -/

/-- Forget a register's staged value (the only field `tick1` writes). -/
def stripNext (g : GateState) : GateState := { g with nextValue := false }

lemma stripNext_fields {g g' : GateState} (h : stripNext g = stripNext g') :
    g.name = g'.name ∧ g.type = g'.type ∧ g.inputs = g'.inputs ∧
      g.value = g'.value := by
  cases g
  cases g'
  simp only [stripNext, GateState.mk.injEq] at h ⊢
  exact ⟨h.1, h.2.1, h.2.2.1, h.2.2.2.1⟩

/-- `getValue` never reads a staged value: arenas equal up to `stripNext`
evaluate identically. -/
lemma getValue_congr {a b : Arena} (h : a.map stripNext = b.map stripNext) :
    ∀ fuel i, getValue a fuel i = getValue b fuel i := by
  intro fuel
  induction fuel with
  | zero => intro i; rfl
  | succ f ih =>
    intro i
    have hi : a[i]?.map stripNext = b[i]?.map stripNext := by
      rw [← List.getElem?_map, ← List.getElem?_map, h]
    cases ha : a[i]? with
    | none =>
      cases hb : b[i]? with
      | none => simp only [getValue, ha, hb]
      | some g' => rw [ha, hb] at hi; simp at hi
    | some g =>
      cases hb : b[i]? with
      | none => rw [ha, hb] at hi; simp at hi
      | some g' =>
        rw [ha, hb] at hi
        simp only [Option.map_some'] at hi
        obtain ⟨hn, ht, hinp, hv⟩ := stripNext_fields (Option.some.inj hi)
        simp only [getValue, ha, hb, ← ht, ← hinp, ← hv]
        cases g.type <;> simp only [ih]

/-- What one `tick1()` call does to the arena: it preserves everything up
to `stripNext`, leaves every other index untouched, and for a register
stages the value of its input read in the current arena. -/
lemma tick1Step_spec {fuel : Nat} {a a' : Arena} {i : Nat}
    (h : tick1Step fuel a i = some a') :
    a'.map stripNext = a.map stripNext ∧
    (∀ k, k ≠ i → a'[k]? = a[k]?) ∧
    (∀ g, a[i]? = some g → g.type = .register →
      ∃ j v, g.inputs[0]? = some (some j) ∧ getValue a fuel j = some v ∧
        a'[i]? = some { g with nextValue := v }) := by
  cases ha : a[i]? with
  | none =>
    simp only [tick1Step, ha, Option.some.injEq] at h
    subst h
    refine ⟨rfl, fun k _ => rfl, fun g hg _ => ?_⟩
    exact Option.noConfusion hg
  | some g =>
    cases htype : g.type with
    | register =>
      simp only [tick1Step, ha, htype] at h
      cases hin : g.inputs[0]? with
      | none => simp only [hin] at h; exact Option.noConfusion h
      | some hd =>
        cases hd with
        | none => simp only [hin] at h; exact Option.noConfusion h
        | some j =>
          simp only [hin] at h
          cases hv : getValue a fuel j with
          | none => simp only [hv] at h; exact Option.noConfusion h
          | some v =>
            simp only [hv, Option.some.injEq] at h
            subst h
            refine ⟨?_, ?_, ?_⟩
            · rw [List.map_set]
              apply set_self_of_getElem?
              rw [List.getElem?_map, ha]
              simp [stripNext, htype]
            · intro k hk
              exact List.getElem?_set_ne (fun he => hk he.symm)
            · intro g' hg' _
              cases hg'
              refine ⟨j, v, hin, hv, ?_⟩
              rw [List.getElem?_set_self']
              simp [ha, htype]
    | low =>
      simp only [tick1Step, ha, htype, Option.some.injEq] at h
      subst h
      refine ⟨rfl, fun k _ => rfl, fun g' hg' ht' => ?_⟩
      cases hg'
      rw [htype] at ht'
      cases ht'
    | nand =>
      simp only [tick1Step, ha, htype, Option.some.injEq] at h
      subst h
      refine ⟨rfl, fun k _ => rfl, fun g' hg' ht' => ?_⟩
      cases hg'
      rw [htype] at ht'
      cases ht'
    | input =>
      simp only [tick1Step, ha, htype, Option.some.injEq] at h
      subst h
      refine ⟨rfl, fun k _ => rfl, fun g' hg' ht' => ?_⟩
      cases hg'
      rw [htype] at ht'
      cases ht'
    | tickOutputOnly =>
      simp only [tick1Step, ha, htype] at h
      have haa : a' = a := by
        cases hin : g.inputs[0]? with
        | none => simp only [hin] at h; exact Option.noConfusion h
        | some hd =>
          cases hd with
          | none => simp only [hin] at h; exact Option.noConfusion h
          | some j =>
            simp only [hin] at h
            cases hv : getValue a fuel j with
            | none => simp only [hv] at h; exact Option.noConfusion h
            | some v =>
              simp only [hv, Option.some.injEq] at h
              exact h.symm
      subst haa
      refine ⟨rfl, fun k _ => rfl, fun g' hg' ht' => ?_⟩
      cases hg'
      rw [htype] at ht'
      cases ht'

/-- Cumulative effect of the phase-1 loop over any index list: committed
data is untouched, indices outside the list are untouched, and every
register whose index is listed ends with `nextValue` staged from its input
evaluated against the arena the loop started from — so the iteration order
within phase 1 cannot influence the result. -/
lemma tick1Go_spec (fuel : Nat) :
    ∀ (is : List Nat) (a b : Arena), tick1Go fuel is a = some b →
      b.map stripNext = a.map stripNext ∧
      (∀ i, i ∉ is → b[i]? = a[i]?) ∧
      (∀ i, i ∈ is → ∀ g, a[i]? = some g → g.type = .register →
        ∃ j v, g.inputs[0]? = some (some j) ∧ getValue a fuel j = some v ∧
          b[i]? = some { g with nextValue := v }) := by
  intro is
  induction is with
  | nil =>
    intro a b h
    simp only [tick1Go, Option.some.injEq] at h
    subst h
    exact ⟨rfl, fun _ _ => rfl, fun i hi => absurd hi (List.not_mem_nil i)⟩
  | cons i0 is ih =>
    intro a b h
    simp only [tick1Go] at h
    cases hstep : tick1Step fuel a i0 with
    | none => rw [hstep] at h; exact Option.noConfusion h
    | some a1 =>
      rw [hstep] at h
      obtain ⟨hstrip1, hother1, hreg1⟩ := tick1Step_spec hstep
      obtain ⟨hstrip2, hother2, hreg2⟩ := ih a1 b h
      have hgv : ∀ f j, getValue a1 f j = getValue a f j :=
        fun f j => getValue_congr hstrip1 f j
      refine ⟨hstrip2.trans hstrip1, ?_, ?_⟩
      · intro i hi
        have hi0 : i ≠ i0 := fun he => hi (he ▸ List.mem_cons_self i0 is)
        have his : i ∉ is := fun hm => hi (List.mem_cons_of_mem _ hm)
        rw [hother2 i his, hother1 i hi0]
      · intro i hi g hg htype
        by_cases hi0 : i = i0
        · subst hi0
          obtain ⟨j, v, hin, hv, ha1⟩ := hreg1 g hg htype
          by_cases hmem : i ∈ is
          · obtain ⟨j', v', hin', hv', hb⟩ := hreg2 i hmem _ ha1 htype
            have hj : j' = j := by
              have hh : some (some j) = some (some j') := hin.symm.trans hin'
              exact (Option.some.inj (Option.some.inj hh)).symm
            have hv2 : v' = v := by
              rw [hj, hgv] at hv'
              exact (Option.some.inj (hv.symm.trans hv')).symm
            rw [hv2] at hb
            exact ⟨j, v, hin, hv, hb⟩
          · rw [hother2 i hmem]
            exact ⟨j, v, hin, hv, ha1⟩
        · have hmem : i ∈ is := by
            rcases List.mem_cons.mp hi with he | hm
            · exact absurd he hi0
            · exact hm
          have ha1 : a1[i]? = a[i]? := hother1 i hi0
          obtain ⟨j, v, hin, hv, hb⟩ := hreg2 i hmem g (ha1.trans hg) htype
          exact ⟨j, v, hin, (hgv fuel j).symm.trans hv, hb⟩

/-- C5: for every register gate and every successful tick, phase 1 stages
`nextValue` from input0's committed value as read in the pre-tick arena
(so within-phase iteration order is irrelevant), phase 2 commits the
staged value, and `getValue` returns the committed value — never the
staged one — both between the two phases and between ticks. -/
theorem register_two_phase_tick {fuel : Nat} {a b : Arena} {i : Nat}
    {g : GateState} (htick : tick fuel a = some b) (hg : a[i]? = some g)
    (htype : g.type = GateType.register) :
    ∃ j v a1, g.inputs[0]? = some (some j) ∧
      getValue a fuel j = some v ∧
      tick1 fuel a = some a1 ∧
      a1[i]? = some { g with nextValue := v } ∧
      (∀ f, getValue a1 (f + 1) i = some g.value) ∧
      b = tick2 a1 ∧
      b[i]? = some { g with value := v, nextValue := v } ∧
      (∀ f, getValue a (f + 1) i = some g.value) := by
  have hmem : i ∈ List.range a.length :=
    List.mem_range.mpr (lt_length_of_getElem? hg)
  cases h1 : tick1 fuel a with
  | none => rw [tick, h1] at htick; exact Option.noConfusion htick
  | some a1 =>
    rw [tick, h1] at htick
    have hb : b = tick2 a1 := (Option.some.inj htick).symm
    obtain ⟨hstrip, hother, hreg⟩ := tick1Go_spec fuel (List.range a.length) a a1 h1
    obtain ⟨j, v, hin, hv, ha1⟩ := hreg i hmem g hg htype
    refine ⟨j, v, a1, hin, hv, rfl, ha1, ?_, hb, ?_, ?_⟩
    · intro f
      simp [getValue, ha1, htype]
    · rw [hb]
      simp [tick2, tick2Step, List.getElem?_map, ha1, htype]
    · intro f
      simp [getValue, hg, htype]

/-- C10: `TickOutputOnly::getValue` is `assert(false)`: reading a probe
gate's value always aborts and never produces a boolean, for any fuel. -/
theorem probe_getValue_always_fails {a : Arena} {i : Nat} {g : GateState}
    (hg : a[i]? = some g) (htype : g.type = GateType.tickOutputOnly) :
    ∀ fuel, getValue a fuel i = none := by
  intro fuel
  cases fuel with
  | zero => rfl
  | succ f => simp [getValue, hg, htype]

/-- C7: the whole pipeline — instantiate a prototype into a fresh arena,
link it, tick `n` times, read every output after each tick — is a function
of the prototype, the link arguments, the fuel and the tick count alone,
so two identically prepared runs observe identical output sequences. -/
theorem runSeq_deterministic {fuel : Nat} {p : Prototype} {args : List Handle}
    {n : Nat} {s1 s2 : List (List Bool)}
    (h1 : runSeq fuel p args n = some s1) (h2 : runSeq fuel p args n = some s2) :
    s1 = s2 := by
  rw [h1] at h2
  exact Option.some.inj h2

/-- C3: linking a freshly instantiated circuit with a handle list whose
length differs from the prototype's declared input arity aborts before any
gate is mutated — the arena comes back exactly as it went in.  (For a
composite the arity `assert` sits after the link-state flip but before any
child is linked; for a primitive it guards the input-slot writes.) -/
theorem link_arity_mismatch_aborts {p : Prototype} {a0 a : Arena}
    {b : String} {c : Circuit} {args : List Handle}
    (hinst : instantiate p a0 b = some (a, c))
    (hlen : args.length ≠ p.numInputs) :
    linkC a c args = (a, none) := by
  cases p with
  | gate t =>
    simp only [instantiate, Option.some.injEq, Prod.mk.injEq] at hinst
    obtain ⟨ha, hc⟩ := hinst
    subst ha
    subst hc
    have hget : (a0 ++ [mkGate (b ++ "[" ++ t.typeName ++ "] ") t])[a0.length]? =
        some (mkGate (b ++ "[" ++ t.typeName ++ "] ") t) :=
      List.getElem?_concat_length ..
    simp only [linkC, hget]
    rw [if_neg]
    intro he
    apply hlen
    simpa [mkGate, Prototype.numInputs] using he
  | output lbl =>
    simp only [instantiate, Option.some.injEq, Prod.mk.injEq] at hinst
    obtain ⟨ha, hc⟩ := hinst
    subst ha
    subst hc
    have hget : (a0 ++ [mkGate (b ++ "[" ++ GateType.tickOutputOnly.typeName ++ "] ")
        .tickOutputOnly])[a0.length]? =
        some (mkGate (b ++ "[" ++ GateType.tickOutputOnly.typeName ++ "] ")
          .tickOutputOnly) :=
      List.getElem?_concat_length ..
    simp only [linkC, hget]
    rw [if_neg]
    intro he
    apply hlen
    simpa [mkGate, Prototype.numInputs, GateType.numInputs] using he
  | composite tn ins outs cmds =>
    simp only [instantiate] at hinst
    cases hloop : instLoop tn b cmds a0 [] [] with
    | none => simp only [hloop] at hinst; exact Option.noConfusion hinst
    | some r =>
      obtain ⟨a1, ev, circs⟩ := r
      simp only [hloop, Option.some.injEq, Prod.mk.injEq] at hinst
      obtain ⟨ha, hc⟩ := hinst
      subst ha
      subst hc
      simp only [linkC, Bool.false_eq_true, if_false]
      rw [if_neg]
      intro he
      exact hlen he

/-! ### Symbol-table lemmas -/

/-- Whether a net name is bound in a symbol table. -/
def hasKey (ev : SymTab) (k : String) : Bool :=
  (lookupSym ev k).isSome

lemma lookupSym_append (ev l : SymTab) (k : String) :
    lookupSym (ev ++ l) k =
      match lookupSym ev k with
      | some v => some v
      | none => lookupSym l k := by
  induction ev with
  | nil => rfl
  | cons hd tl ih =>
    obtain ⟨k', v⟩ := hd
    by_cases hk : k' = k <;> simp [lookupSym, hk, ih]

lemma hasKey_append_left {ev : SymTab} {k : String} (l : SymTab)
    (h : hasKey ev k = true) : hasKey (ev ++ l) k = true := by
  unfold hasKey at h ⊢
  rw [lookupSym_append]
  cases hl : lookupSym ev k with
  | none => rw [hl] at h; cases h
  | some v => rfl

lemma lookup_left_none_of_append_none {ev l : SymTab} {k : String}
    (h : lookupSym (ev ++ l) k = none) : lookupSym ev k = none := by
  rw [lookupSym_append] at h
  cases hl : lookupSym ev k with
  | none => rfl
  | some v => rw [hl] at h; exact Option.noConfusion h

/-- `regOutputs` only ever appends bindings. -/
lemma regOutputs_extend {circ : Circuit} {outsN : List String} :
    ∀ {is : List Nat} {ev ev' : SymTab},
      regOutputs circ outsN is ev = some ev' → ∃ l, ev' = ev ++ l := by
  intro is
  induction is with
  | nil =>
    intro ev ev' h
    simp only [regOutputs, Option.some.injEq] at h
    exact ⟨[], by rw [← h, List.append_nil]⟩
  | cons i is ih =>
    intro ev ev' h
    simp only [regOutputs] at h
    cases hnm : outsN[i]? with
    | none => simp only [hnm] at h; exact Option.noConfusion h
    | some nm =>
      simp only [hnm] at h
      cases hl : lookupSym ev nm with
      | some v => simp only [hl] at h; exact Option.noConfusion h
      | none =>
        simp only [hl] at h
        cases hout : getOutput circ i with
        | none => simp only [hout] at h; exact Option.noConfusion h
        | some hdl =>
          simp only [hout] at h
          obtain ⟨l, hl2⟩ := ih h
          exact ⟨(nm, hdl) :: l, by rw [hl2, List.append_assoc]; rfl⟩

/-- Bindings survive `regOutputs`. -/
lemma regOutputs_mono {circ : Circuit} {outsN : List String}
    {is : List Nat} {ev ev' : SymTab} {k : String}
    (h : regOutputs circ outsN is ev = some ev') (hk : hasKey ev k = true) :
    hasKey ev' k = true := by
  obtain ⟨l, hl⟩ := regOutputs_extend h
  rw [hl]
  exact hasKey_append_left l hk

/-- After a successful `regOutputs` pass, every registered net name is
bound. -/
lemma regOutputs_covers {circ : Circuit} {outsN : List String} :
    ∀ {is : List Nat} {ev ev' : SymTab},
      regOutputs circ outsN is ev = some ev' →
      ∀ i ∈ is, ∀ nm, outsN[i]? = some nm → hasKey ev' nm = true := by
  intro is
  induction is with
  | nil => intro ev ev' h i hi; exact absurd hi (List.not_mem_nil i)
  | cons i0 is ih =>
    intro ev ev' h i hi nm hnm
    simp only [regOutputs] at h
    cases hnm0 : outsN[i0]? with
    | none => simp only [hnm0] at h; exact Option.noConfusion h
    | some nm0 =>
      simp only [hnm0] at h
      cases hl : lookupSym ev nm0 with
      | some v => simp only [hl] at h; exact Option.noConfusion h
      | none =>
        simp only [hl] at h
        cases hout : getOutput circ i0 with
        | none => simp only [hout] at h; exact Option.noConfusion h
        | some hdl =>
          simp only [hout] at h
          rcases List.mem_cons.mp hi with he | hm
          · subst he
            rw [hnm0] at hnm
            cases hnm
            apply regOutputs_mono h
            unfold hasKey
            rw [lookupSym_append, hl]
            simp [lookupSym]
          · exact ih h i hm nm hnm

/-- A successful `regOutputs` pass required each registered name to be
absent from the initial table (the constructor's duplicate `assert`). -/
lemma regOutputs_fresh {circ : Circuit} {outsN : List String} :
    ∀ {is : List Nat} {ev ev' : SymTab},
      regOutputs circ outsN is ev = some ev' →
      ∀ i ∈ is, ∀ nm, outsN[i]? = some nm → lookupSym ev nm = none := by
  intro is
  induction is with
  | nil => intro ev ev' h i hi; exact absurd hi (List.not_mem_nil i)
  | cons i0 is ih =>
    intro ev ev' h i hi nm hnm
    simp only [regOutputs] at h
    cases hnm0 : outsN[i0]? with
    | none => simp only [hnm0] at h; exact Option.noConfusion h
    | some nm0 =>
      simp only [hnm0] at h
      cases hl : lookupSym ev nm0 with
      | some v => simp only [hl] at h; exact Option.noConfusion h
      | none =>
        simp only [hl] at h
        cases hout : getOutput circ i0 with
        | none => simp only [hout] at h; exact Option.noConfusion h
        | some hdl =>
          simp only [hout] at h
          rcases List.mem_cons.mp hi with he | hm
          · subst he
            rw [hnm0] at hnm
            cases hnm
            exact hl
          · exact lookup_left_none_of_append_none (ih h i hm nm hnm)

lemma getElem?_of_mem' {α : Type} {l : List α} {a : α} (h : a ∈ l) :
    ∃ i : Nat, l[i]? = some a := by
  obtain ⟨i, hi, he⟩ := List.getElem_of_mem h
  exact ⟨i, by rw [List.getElem?_eq_getElem hi, he]⟩

lemma mem_of_getElem?' {α : Type} {l : List α} {a : α} {i : Nat}
    (h : l[i]? = some a) : a ∈ l := by
  have hlt : i < l.length := lt_length_of_getElem? h
  rw [List.getElem?_eq_getElem hlt] at h
  exact (Option.some.inj h) ▸ List.getElem_mem hlt

/-! ### The placement loop of instantiation -/

/-- `instLoop` only ever appends bindings to the scope's symbol table. -/
lemma instLoop_extend {tn b : String} :
    ∀ {cmds : List Cmd} {arena : Arena} {ev : SymTab} {acc : List Circuit}
      {a' : Arena} {ev' : SymTab} {circs' : List Circuit},
      instLoop tn b cmds arena ev acc = some (a', ev', circs') →
      ∃ l, ev' = ev ++ l := by
  intro cmds
  induction cmds with
  | nil =>
    intro arena ev acc a' ev' circs' h
    simp only [instLoop, Option.some.injEq, Prod.mk.injEq] at h
    exact ⟨[], by rw [← h.2.1, List.append_nil]⟩
  | cons cmd rest ih =>
    obtain ⟨p, insN, outsN, cid⟩ := cmd
    intro arena ev acc a' ev' circs' h
    simp only [instLoop] at h
    cases hi : instantiate p arena (childBuilder b tn cid) with
    | none => simp only [hi] at h; exact Option.noConfusion h
    | some r =>
      obtain ⟨arena1, circ⟩ := r
      simp only [hi] at h
      cases hr : regOutputs circ outsN (List.range p.numOutputs) ev with
      | none => simp only [hr] at h; exact Option.noConfusion h
      | some ev1 =>
        simp only [hr] at h
        obtain ⟨l1, he1⟩ := regOutputs_extend hr
        obtain ⟨l2, he2⟩ := ih h
        exact ⟨l1 ++ l2, by rw [he2, he1, List.append_assoc]⟩

/-- After a successful placement loop, every output net of every placement
(whose name list matches the child's output arity, as `addPrototype`
guarantees) is bound in the resulting symbol table. -/
lemma instLoop_covers {tn b : String} :
    ∀ {cmds : List Cmd} {arena : Arena} {ev : SymTab} {acc : List Circuit}
      {a' : Arena} {ev' : SymTab} {circs' : List Circuit},
      instLoop tn b cmds arena ev acc = some (a', ev', circs') →
      ∀ cmd ∈ cmds, cmd.2.2.1.length = cmd.1.numOutputs →
      ∀ nm ∈ cmd.2.2.1, hasKey ev' nm = true := by
  intro cmds
  induction cmds with
  | nil =>
    intro arena ev acc a' ev' circs' h cmd hcmd
    exact absurd hcmd (List.not_mem_nil cmd)
  | cons cmd0 rest ih =>
    obtain ⟨p, insN, outsN, cid⟩ := cmd0
    intro arena ev acc a' ev' circs' h cmd hcmd hlen nm hnm
    simp only [instLoop] at h
    cases hi : instantiate p arena (childBuilder b tn cid) with
    | none => simp only [hi] at h; exact Option.noConfusion h
    | some r =>
      obtain ⟨arena1, circ⟩ := r
      simp only [hi] at h
      cases hr : regOutputs circ outsN (List.range p.numOutputs) ev with
      | none => simp only [hr] at h; exact Option.noConfusion h
      | some ev1 =>
        simp only [hr] at h
        rcases List.mem_cons.mp hcmd with he | hm
        · subst he
          obtain ⟨i, hgi⟩ := getElem?_of_mem' hnm
          have hik : i ∈ List.range p.numOutputs := by
            rw [List.mem_range, ← hlen]
            exact lt_length_of_getElem? hgi
          have h1 : hasKey ev1 nm = true := regOutputs_covers hr i hik nm hgi
          obtain ⟨l, hl⟩ := instLoop_extend h
          rw [hl]
          exact hasKey_append_left l h1
        · exact ih h cmd hm hlen nm hnm

/-- A successful placement loop required every registered output net to be
absent from the symbol table the loop started with. -/
lemma instLoop_fresh {tn b : String} :
    ∀ {cmds : List Cmd} {arena : Arena} {ev : SymTab} {acc : List Circuit}
      {a' : Arena} {ev' : SymTab} {circs' : List Circuit},
      instLoop tn b cmds arena ev acc = some (a', ev', circs') →
      ∀ cmd ∈ cmds, cmd.2.2.1.length = cmd.1.numOutputs →
      ∀ nm ∈ cmd.2.2.1, lookupSym ev nm = none := by
  intro cmds
  induction cmds with
  | nil =>
    intro arena ev acc a' ev' circs' h cmd hcmd
    exact absurd hcmd (List.not_mem_nil cmd)
  | cons cmd0 rest ih =>
    obtain ⟨p, insN, outsN, cid⟩ := cmd0
    intro arena ev acc a' ev' circs' h cmd hcmd hlen nm hnm
    simp only [instLoop] at h
    cases hi : instantiate p arena (childBuilder b tn cid) with
    | none => simp only [hi] at h; exact Option.noConfusion h
    | some r =>
      obtain ⟨arena1, circ⟩ := r
      simp only [hi] at h
      cases hr : regOutputs circ outsN (List.range p.numOutputs) ev with
      | none => simp only [hr] at h; exact Option.noConfusion h
      | some ev1 =>
        simp only [hr] at h
        rcases List.mem_cons.mp hcmd with he | hm
        · subst he
          obtain ⟨i, hgi⟩ := getElem?_of_mem' hnm
          have hik : i ∈ List.range p.numOutputs := by
            rw [List.mem_range, ← hlen]
            exact lt_length_of_getElem? hgi
          exact regOutputs_fresh hr i hik nm hgi
        · have h1 : lookupSym ev1 nm = none := ih h cmd hm hlen nm hnm
          obtain ⟨l, hl⟩ := regOutputs_extend hr
          rw [hl] at h1
          exact lookup_left_none_of_append_none h1

/-- Two placements of one successful placement loop can never claim the
same output net name (the duplicate would have tripped the constructor's
`assert`). -/
lemma instLoop_pairwise {tn b : String} :
    ∀ {cmds : List Cmd} {arena : Arena} {ev : SymTab} {acc : List Circuit}
      {a' : Arena} {ev' : SymTab} {circs' : List Circuit},
      instLoop tn b cmds arena ev acc = some (a', ev', circs') →
      ∀ (i j : Nat) (ci cj : Cmd), i < j → cmds[i]? = some ci →
        cmds[j]? = some cj →
        ci.2.2.1.length = ci.1.numOutputs →
        cj.2.2.1.length = cj.1.numOutputs →
        ∀ nm, nm ∈ ci.2.2.1 → nm ∈ cj.2.2.1 → False := by
  intro cmds
  induction cmds with
  | nil =>
    intro arena ev acc a' ev' circs' h i j ci cj hij hci hcj
    cases hci
  | cons cmd0 rest ih =>
    intro arena ev acc a' ev' circs' h i j ci cj hij hci hcj hli hlj nm hni hnj
    obtain ⟨p, insN, outsN, cid⟩ := cmd0
    simp only [instLoop] at h
    cases hi2 : instantiate p arena (childBuilder b tn cid) with
    | none => simp only [hi2] at h; exact Option.noConfusion h
    | some r =>
      obtain ⟨arena1, circ⟩ := r
      simp only [hi2] at h
      cases hr : regOutputs circ outsN (List.range p.numOutputs) ev with
      | none => simp only [hr] at h; exact Option.noConfusion h
      | some ev1 =>
        simp only [hr] at h
        cases i with
        | zero =>
          cases j with
          | zero => exact absurd hij (lt_irrefl 0)
          | succ j' =>
            simp only [List.getElem?_cons_zero, Option.some.injEq] at hci
            subst hci
            simp only [List.getElem?_cons_succ] at hcj
            have hcjm : cj ∈ rest := mem_of_getElem?' hcj
            have hfresh : lookupSym ev1 nm = none :=
              instLoop_fresh h cj hcjm hlj nm hnj
            obtain ⟨i0, hgi⟩ := getElem?_of_mem' hni
            have hik : i0 ∈ List.range p.numOutputs := by
              rw [List.mem_range, ← hli]
              exact lt_length_of_getElem? hgi
            have hkey : hasKey ev1 nm = true := regOutputs_covers hr i0 hik nm hgi
            unfold hasKey at hkey
            rw [hfresh] at hkey
            cases hkey
        | succ i' =>
          cases j with
          | zero => exact absurd hij (Nat.not_lt_zero _).elim
          | succ j' =>
            simp only [List.getElem?_cons_succ] at hci hcj
            exact ih h i' j' ci cj (Nat.lt_of_succ_lt_succ hij) hci hcj hli hlj
              nm hni hnj

/-- Unpacking `wfCmds`: every listed placement has matching port-name list
lengths and a well-formed child. -/
lemma wfCmds_mem {cmds : List Cmd} (h : wfCmds cmds = true) :
    ∀ cmd ∈ cmds, cmd.2.1.length = cmd.1.numInputs ∧
      cmd.2.2.1.length = cmd.1.numOutputs ∧ wf cmd.1 = true := by
  induction cmds with
  | nil => intro cmd hcmd; exact absurd hcmd (List.not_mem_nil cmd)
  | cons cmd0 rest ih =>
    obtain ⟨p, insN, outsN, cid⟩ := cmd0
    intro cmd hcmd
    simp only [wfCmds, Bool.and_eq_true, beq_iff_eq] at h
    rcases List.mem_cons.mp hcmd with he | hm
    · subst he
      exact ⟨h.1.1.1, h.1.1.2, h.1.2⟩
    · exact ih h.2 cmd hm

/-- The symbol table (`everything`) of a circuit; empty for a primitive
`GateCircuit`, which has none. -/
def everythingOf : Circuit → SymTab
  | .gateC _ => []
  | .compositeC _ ev _ _ => ev

/-- C8: instantiating a well-formed composite prototype in which two
distinct placements declare a common output-net name always fails: the
second registration of the duplicated name trips the constructor's
`assert(everything.find(outputs[i]) == everything.end())`, so no circuit is
produced (nothing is silently overwritten or ignored). -/
theorem duplicate_output_net_instantiation_fails {tn b : String}
    {ins outs : List String} {cmds : List Cmd} {arena : Arena}
    {i j : Nat} {ci cj : Cmd} {nm : String}
    (hwf : wf (.composite tn ins outs cmds) = true)
    (hij : i < j) (hci : cmds[i]? = some ci) (hcj : cmds[j]? = some cj)
    (hni : nm ∈ ci.2.2.1) (hnj : nm ∈ cj.2.2.1) :
    instantiate (.composite tn ins outs cmds) arena b = none := by
  have hwfc : wfCmds cmds = true := hwf
  cases hl : instLoop tn b cmds arena [] [] with
  | none => simp [instantiate, hl]
  | some r =>
    obtain ⟨a', ev', circs'⟩ := r
    have hlci := (wfCmds_mem hwfc ci (mem_of_getElem?' hci)).2.1
    have hlcj := (wfCmds_mem hwfc cj (mem_of_getElem?' hcj)).2.1
    exact (instLoop_pairwise hl i j ci cj hij hci hcj hlci hlcj nm hni hnj).elim

/-- Concrete full-link pipeline for the clock prototype (no outer inputs). -/
def clkLinked : Arena × Option Circuit :=
  match instantiate clkPrototype [] "" with
  | some (a, c) => linkC a c []
  | none => ([], none)

/-- C6: after instantiating a well-formed composite, the scope's symbol
table binds every output-net name of every placement, whatever the
declaration order; and link resolves forward and backward references
through that table — concretely, in the clock the register (gate 0) is
wired to the nand gate (gate 1) produced by the placement declared after
it, and the nand is wired back to the register. -/
theorem symbol_table_covers_all_placed_outputs :
    (∀ (tn b : String) (ins outs : List String) (cmds : List Cmd)
      (arena a : Arena) (c : Circuit),
      instantiate (.composite tn ins outs cmds) arena b = some (a, c) →
      wf (.composite tn ins outs cmds) = true →
      ∀ cmd ∈ cmds, ∀ nm ∈ cmd.2.2.1, hasKey (everythingOf c) nm = true) ∧
    clkLinked.1.map (fun g => (g.type, g.inputs)) =
      [(GateType.register, [some 1]), (GateType.nand, [some 0, some 0])] ∧
    clkLinked.2.isSome = true := by
  refine ⟨?_, rfl, rfl⟩
  intro tn b ins outs cmds arena a c hinst hwf cmd hcmd nm hnm
  have hwfc : wfCmds cmds = true := hwf
  simp only [instantiate] at hinst
  cases hl : instLoop tn b cmds arena [] [] with
  | none => simp only [hl] at hinst; exact Option.noConfusion hinst
  | some r =>
    obtain ⟨a1, ev1, circs1⟩ := r
    simp only [hl, Option.some.injEq, Prod.mk.injEq] at hinst
    obtain ⟨ha, hc⟩ := hinst
    subst hc
    have hlen := (wfCmds_mem hwfc cmd hcmd).2.1
    exact instLoop_covers hl cmd hcmd hlen nm hnm

/-! ### Resolution of input nets at link time -/

lemma lookupSym_append_some {ev : SymTab} {k : String} {v : Handle}
    (l : SymTab) (h : lookupSym ev k = some v) :
    lookupSym (ev ++ l) k = some v := by
  rw [lookupSym_append, h]

/-- Existing bindings survive `resolveInputs` (it only ever appends). -/
lemma resolveInputs_preserve {names : List String} :
    ∀ {ev : SymTab} {k : String} {v : Handle}, lookupSym ev k = some v →
      lookupSym (resolveInputs ev names).1 k = some v := by
  induction names with
  | nil => intro ev k v h; exact h
  | cons n0 rest ih =>
    intro ev k v h
    simp only [resolveInputs, indexSym]
    cases h0 : lookupSym ev n0 with
    | some w =>
      simp only [h0]
      cases hres : resolveInputs ev rest with
      | mk ev2 hs =>
        simp only [hres]
        have hp := ih h
        rw [hres] at hp
        exact hp
    | none =>
      simp only [h0]
      cases hres : resolveInputs (ev ++ [(n0, none)]) rest with
      | mk ev2 hs =>
        simp only [hres]
        have hp := ih (lookupSym_append_some [(n0, none)] h)
        rw [hres] at hp
        exact hp

/-- `operator[]`-based resolution maps a name that is unbound (or bound to
null) to the null handle, and leaves the name bound to null afterwards. -/
lemma resolveInputs_null {names : List String} :
    ∀ {ev : SymTab} {i : Nat} {nm : String}, names[i]? = some nm →
      (lookupSym ev nm = none ∨ lookupSym ev nm = some none) →
      (resolveInputs ev names).2[i]? = some none ∧
      lookupSym (resolveInputs ev names).1 nm = some none := by
  induction names with
  | nil =>
    intro ev i nm h hdis
    rw [List.getElem?_nil] at h
    exact Option.noConfusion h
  | cons n0 rest ih =>
    intro ev i nm h hdis
    cases i with
    | zero =>
      rw [List.getElem?_cons_zero] at h
      cases h
      simp only [resolveInputs, indexSym]
      rcases hdis with h0 | h0
      · simp only [h0]
        cases hres : resolveInputs (ev ++ [(n0, none)]) rest with
        | mk ev2 hs =>
          simp only [hres]
          refine ⟨by simp, ?_⟩
          have hb : lookupSym (ev ++ [(n0, none)]) n0 = some none := by
            rw [lookupSym_append, h0]
            simp [lookupSym]
          have hp : lookupSym (resolveInputs (ev ++ [(n0, none)]) rest).1 n0 =
              some none := resolveInputs_preserve hb
          rw [hres] at hp
          exact hp
      · simp only [h0]
        cases hres : resolveInputs ev rest with
        | mk ev2 hs =>
          simp only [hres]
          refine ⟨by simp, ?_⟩
          have hp : lookupSym (resolveInputs ev rest).1 n0 = some none :=
            resolveInputs_preserve h0
          rw [hres] at hp
          exact hp
    | succ i' =>
      rw [List.getElem?_cons_succ] at h
      simp only [resolveInputs, indexSym]
      cases h0 : lookupSym ev n0 with
      | some w =>
        simp only [h0]
        cases hres : resolveInputs ev rest with
        | mk ev2 hs =>
          simp only [hres]
          have hih := ih h hdis
          rw [hres] at hih
          exact ⟨by simpa using hih.1, by simpa using hih.2⟩
      | none =>
        simp only [h0]
        have hdis1 : lookupSym (ev ++ [(n0, none)]) nm = none ∨
            lookupSym (ev ++ [(n0, none)]) nm = some none := by
          rcases hdis with hd | hd
          · rw [lookupSym_append, hd]
            by_cases he : n0 = nm
            · subst he
              right
              simp [lookupSym]
            · left
              simp [lookupSym, he]
          · right
            exact lookupSym_append_some _ hd
        cases hres : resolveInputs (ev ++ [(n0, none)]) rest with
        | mk ev2 hs =>
          simp only [hres]
          have hih := ih h hdis1
          rw [hres] at hih
          exact ⟨by simpa using hih.1, by simpa using hih.2⟩

/-- A composite with one placement whose inputs name the net `nm`, which
no placement produces (the only produced net is `out`). -/
def missingNetProto (nm : String) : Prototype :=
  .composite "test" [] ["out"] [(nandPrototype, [nm, nm], ["out"], "")]

/-- Instantiate-and-link pipeline for `missingNetProto`. -/
def missingNetLink (nm : String) : Arena × Option Circuit :=
  match instantiate (missingNetProto nm) [] "" with
  | some (a, c) => linkC a c []
  | none => ([], none)

/-- C2, counterexample: with the unbound input net `missing`, `link` does
not fail — it succeeds and leaves the nand's two input slots wired to the
null handle. -/
theorem link_missing_net_counterexample :
    (missingNetLink "missing").2.isSome = true ∧
    (missingNetLink "missing").1.map GateState.inputs = [[none, none]] :=
  ⟨rfl, rfl⟩

/-- C2, amended: `link` does not fail on an input-net name that no
placement produced and that is no outer input port.  The resolution step
(`everything[name]`, an `unordered_map::operator[]`) silently
default-inserts a null binding for the missing name and passes the null
handle on, and the child's input slots are wired to null: linking
completes as if nothing were wrong. -/
theorem link_missing_net_silently_null :
    (∀ (ev : SymTab) (names : List String) (i : Nat) (nm : String),
      names[i]? = some nm → lookupSym ev nm = none →
      (resolveInputs ev names).2[i]? = some none ∧
      lookupSym (resolveInputs ev names).1 nm = some none) ∧
    (∀ nm : String, nm ≠ "out" →
      (missingNetLink nm).2.isSome = true ∧
      (missingNetLink nm).1.map GateState.inputs = [[none, none]]) := by
  constructor
  · intro ev names i nm h h0
    exact resolveInputs_null h (Or.inl h0)
  · intro nm hnm
    constructor <;>
      simp [missingNetLink, missingNetProto, nandPrototype, instantiate,
        instLoop, regOutputs, getOutput, linkC, linkLoop, resolveInputs,
        indexSym, insertArgs, lookupSym, mkGate, childBuilder,
        Prototype.numOutputs, Prototype.numInputs, GateType.numInputs,
        GateType.typeName, List.range, List.range.loop, Ne.symm hnm]

/-- C2, witness: resolving the unbound name `missing` against an empty
symbol table yields the null handle and leaves a null binding behind. -/
theorem link_missing_net_witness :
    (resolveInputs [] ["missing"]).2[0]? = some none ∧
    lookupSym (resolveInputs [] ["missing"]).1 "missing" = some none :=
  link_missing_net_silently_null.1 [] ["missing"] 0 "missing" rfl rfl

/-! ### Re-linking -/

/-- Pipeline: instantiate the bare register prototype and link it twice
(the register's input pointed at itself — a plain pointer write). -/
def relinkTwice : Arena × Option Circuit :=
  match instantiate registerPrototype [] "" with
  | some (a, c) =>
    match linkC a c [some 0] with
    | (a1, some c1) => linkC a1 c1 [some 0]
    | (a1, none) => (a1, none)
  | none => ([], none)

/-- C4, counterexample: a primitive gate circuit that has already been
linked once accepts a second `link` call — the second call returns a
circuit instead of failing loudly, so `Linked` is not terminal for
primitive circuits. -/
theorem relink_primitive_succeeds_counterexample :
    relinkTwice.2.isSome = true := rfl

/-- C4, amended: only composite circuits track the `Init → Linked` state
and reject a second `link`; a primitive `GateCircuit` keeps no link state,
so a second `link` with matching arity succeeds and simply overwrites the
gate's input slots. -/
theorem relink_composite_fails_primitive_succeeds :
    (∀ (a : Arena) (ev : SymTab) (cs : List Circuit) (p : Prototype)
      (args : List Handle),
      linkC a (.compositeC true ev cs p) args = (a, none)) ∧
    (∀ (a : Arena) (g : Nat) (gate : GateState) (args args' : List Handle),
      a[g]? = some gate → args.length = gate.inputs.length →
      args'.length = gate.inputs.length →
      ∃ a1, linkC a (.gateC g) args = (a1, some (.gateC g)) ∧
        ∃ a2, linkC a1 (.gateC g) args' = (a2, some (.gateC g))) := by
  constructor
  · intro a ev cs p args
    cases p <;> simp [linkC]
  · intro a g gate args args' hg hlen hlen'
    refine ⟨a.set g { gate with inputs := args }, ?_, ?_⟩
    · simp [linkC, hg, hlen]
    · have hg2 : (a.set g { gate with inputs := args })[g]? =
          some { gate with inputs := args } := by
        rw [List.getElem?_set_self']
        simp [hg]
      refine ⟨(a.set g { gate with inputs := args }).set g
        { gate with inputs := args' }, ?_⟩
      simp [linkC, hg2, hlen'.trans hlen.symm]

/-- C4, witness for the amended claim: a linked composite circuit rejects
a second link, and a twice-linked register gate circuit succeeds twice. -/
theorem relink_witness :
    linkC [mkGate "[nand] " GateType.nand]
        (.compositeC true [] [] nandPrototype) [] =
      ([mkGate "[nand] " GateType.nand], none) ∧
    (∃ a1, linkC [mkGate "[nand] " GateType.nand] (.gateC 0) [none, none] =
        (a1, some (.gateC 0)) ∧
      ∃ a2, linkC a1 (.gateC 0) [some 0, some 0] = (a2, some (.gateC 0))) :=
  ⟨relink_composite_fails_primitive_succeeds.1 [mkGate "[nand] " GateType.nand]
      [] [] nandPrototype [],
   relink_composite_fails_primitive_succeeds.2 [mkGate "[nand] " GateType.nand]
      0 (mkGate "[nand] " GateType.nand) [none, none] [some 0, some 0]
      rfl (by decide) (by decide)⟩

/-! ### The clock scenario -/

/-- The clock's post-tick output sequence: instantiate the clock alone,
link it with no inputs, and read the register's committed value after each
of the first `n` ticks. -/
def clkSeq (n : Nat) : Option (List (List Bool)) :=
  runSeq 8 clkPrototype [] n

/-- The clock's committed output read before any tick has run. -/
def clkPreSeq : Option (List Bool) :=
  match instantiate clkPrototype [] "" with
  | some (a, c) =>
    match linkC a c [] with
    | (a1, some c1) => readOutputs 8 a1 c1 1
    | _ => none
  | none => none

/-- C1, counterexample: reading the clock's committed value after each of
the first 4 ticks does not give `false, true, false, true` — the claimed
sequence is wrong for post-tick reads. -/
theorem clock_sequence_counterexample :
    clkSeq 4 ≠ some [[false], [true], [false], [true]] := by
  intro h
  have hval : clkSeq 4 = some [[true], [false], [true], [false]] := rfl
  rw [hval] at h
  simp at h

/-- C1, amended: the committed values read after ticks 1–4 are
`true, false, true, false`; the value starts at `false` before the first
tick, so the spec's `false, true, false, true` is the sequence a phase-1
observer (such as the probe gate) reports during ticks 1–4, i.e. the
committed values just before each tick commits. -/
theorem clock_sequence_amended :
    clkSeq 4 = some [[true], [false], [true], [false]] ∧
    clkPreSeq = some [false] :=
  ⟨rfl, rfl⟩

/-! ### The adder scenario -/

/-- A `user-input` gate (class `Input`) holding the value `b`. -/
def inputGate (b : Bool) : GateState :=
  { name := "[user-input] ", type := .input, inputs := [none, none],
    value := b }

/-- Instantiate the 3-input adder over three input gates all reading `b`,
link it to them, and read its two outputs (value, carry). -/
def adderEval (b : Bool) : Option (List Bool) :=
  match instantiate adderPrototype [inputGate b, inputGate b, inputGate b] "" with
  | none => none
  | some (a, c) =>
    match linkC a c [some 0, some 1, some 2] with
    | (a1, some c1) => readOutputs 32 a1 c1 2
    | _ => none

set_option maxHeartbeats 4000000 in
set_option maxRecDepth 16000 in
/-- C9: the 3-input single-bit adder linked to three input gates reads
(value, carry) = (false, false) when all inputs are false and
(true, true) when all inputs are true. -/
theorem adder_boundary_cases :
    adderEval false = some [false, false] ∧
    adderEval true = some [true, true] := by
  constructor <;>
    simp [adderEval, adderPrototype, xorPrototype, orPrototype, andPrototype,
      notPrototype, nandPrototype, instantiate, instLoop, regOutputs,
      getOutput, linkC, linkLoop, resolveInputs, indexSym, insertArgs,
      lookupSym, readOutputs, readOutputsFrom, getValue, mkGate, childBuilder,
      inputGate, Prototype.numInputs, Prototype.numOutputs, GateType.numInputs,
      GateType.typeName, List.range, List.range.loop]

/-! ### Witnesses -/

/-- A register wired to read input gate 1. -/
def wReg : GateState :=
  { name := "[register] ", type := .register, inputs := [some 1] }

/-- Two-gate arena: the register and a `user-input` gate reading true. -/
def wArena : Arena :=
  [wReg, inputGate true]

/-- `wArena` after one tick: the register sampled and committed `true`. -/
def wTicked : Arena :=
  [{ name := "[register] ", type := .register, inputs := [some 1],
     value := true, nextValue := true },
   inputGate true]

/-- C5, witness: the two-phase theorem applied to a concrete register
arena. -/
theorem register_two_phase_tick_witness :
    ∃ j v a1, wReg.inputs[0]? = some (some j) ∧
      getValue wArena 2 j = some v ∧
      tick1 2 wArena = some a1 ∧
      a1[0]? = some { wReg with nextValue := v } ∧
      (∀ f, getValue a1 (f + 1) 0 = some wReg.value) ∧
      wTicked = tick2 a1 ∧
      wTicked[0]? = some { wReg with value := v, nextValue := v } ∧
      (∀ f, getValue wArena (f + 1) 0 = some wReg.value) :=
  register_two_phase_tick (show tick 2 wArena = some wTicked from rfl)
    (show wArena[0]? = some wReg from rfl)
    (show wReg.type = GateType.register from rfl)

/-- C10, witness: reading a concrete probe gate's value with fuel 5 fails. -/
theorem probe_getValue_witness :
    getValue [mkGate "[tick - outputonly] " GateType.tickOutputOnly] 5 0 =
      none :=
  probe_getValue_always_fails
    (show ([mkGate "[tick - outputonly] " GateType.tickOutputOnly] :
        Arena)[0]? =
      some (mkGate "[tick - outputonly] " GateType.tickOutputOnly) from rfl)
    (show (mkGate "[tick - outputonly] " GateType.tickOutputOnly).type =
      GateType.tickOutputOnly from rfl) 5

/-- C7, witness: two identically prepared clock runs of 2 ticks observe
the same output sequence. -/
theorem runSeq_deterministic_witness :
    runSeq 8 clkPrototype [] 2 = some [[true], [false]] ∧
    ([[true], [false]] : List (List Bool)) = [[true], [false]] :=
  ⟨rfl, runSeq_deterministic
    (show runSeq 8 clkPrototype [] 2 = some [[true], [false]] from rfl)
    (show runSeq 8 clkPrototype [] 2 = some [[true], [false]] from rfl)⟩

/-- C3, witness: linking a freshly instantiated nand circuit with an empty
handle list (arity 2 expected) aborts with the arena untouched. -/
theorem link_arity_mismatch_witness :
    linkC [mkGate "[nand] " GateType.nand] (.gateC 0) [] =
      ([mkGate "[nand] " GateType.nand], none) :=
  link_arity_mismatch_aborts
    (show instantiate nandPrototype [] "" =
      some ([mkGate "[nand] " GateType.nand], .gateC 0) from rfl)
    (show ([] : List Handle).length ≠ nandPrototype.numInputs from by decide)

/-- C8, witness: two placements both claiming output net `a` make
instantiation fail. -/
theorem duplicate_output_net_witness :
    instantiate (.composite "dup" [] ["a"]
      [(lowPrototype, [], ["a"], ""), (lowPrototype, [], ["a"], "")]) [] "" =
      none :=
  duplicate_output_net_instantiation_fails
    (show wf (.composite "dup" [] ["a"]
      [(lowPrototype, [], ["a"], ""), (lowPrototype, [], ["a"], "")]) =
        true from rfl)
    (show 0 < 1 from by decide)
    (show [(lowPrototype, [], ["a"], ""),
      (lowPrototype, [], ["a"], "")][0]? =
        some ((lowPrototype, [], ["a"], "") : Cmd) from rfl)
    (show [(lowPrototype, [], ["a"], ""),
      (lowPrototype, [], ["a"], "")][1]? =
        some ((lowPrototype, [], ["a"], "") : Cmd) from rfl)
    (List.mem_cons_self "a" [])
    (List.mem_cons_self "a" [])

/-- The arena produced by instantiating the clock alone. -/
def clkArenaVal : Arena :=
  [mkGate "[clock] [register] " .register, mkGate "[clock] [not] [nand] " .nand]

/-- The circuit produced by instantiating the clock alone: the symbol
table already binds `out` (from the register placement) and `in` (from
the later `not` placement). -/
def clkCircuitVal : Circuit :=
  .compositeC false [("out", some 0), ("in", some 1)]
    [.gateC 0, .compositeC false [("not", some 1)] [.gateC 1] notPrototype]
    clkPrototype

/-- C6, witness: both clock placements' output nets — including `in`,
produced by the placement declared last — are bound in the clock scope's
symbol table right after instantiation. -/
theorem symbol_table_covers_witness :
    hasKey (everythingOf clkCircuitVal) "in" = true ∧
    hasKey (everythingOf clkCircuitVal) "out" = true :=
  ⟨symbol_table_covers_all_placed_outputs.1 "clock" "" [] ["out"]
      [(registerPrototype, ["in"], ["out"], ""),
       (notPrototype, ["out"], ["in"], "")]
      [] clkArenaVal clkCircuitVal rfl rfl
      (notPrototype, ["out"], ["in"], "")
      (List.mem_cons_of_mem _ (List.mem_cons_self _ _)) "in"
      (List.mem_cons_self "in" []),
   symbol_table_covers_all_placed_outputs.1 "clock" "" [] ["out"]
      [(registerPrototype, ["in"], ["out"], ""),
       (notPrototype, ["out"], ["in"], "")]
      [] clkArenaVal clkCircuitVal rfl rfl
      (registerPrototype, ["in"], ["out"], "")
      (List.mem_cons_self _ _) "out"
      (List.mem_cons_self "out" [])⟩

end CircuitSim
